import Mathlib

/-!
Shallow embedding of the abort-controller-x combinator library and proofs
about its settlement behaviour.

Modelling conventions:
* A promise rejection reason is modelled as a `JSError` (a JS object with a
  `name` and a `message` field); `isAbortError` mirrors the structural check
  of `AbortError.ts` (`error.name === 'AbortError'`).
* The asynchronous behaviour of each combinator is modelled as a fold over
  the list of settlement events of its input promises, in arrival order.
  This matches the source: each input promise gets a `then` handler that
  mutates shared state, and handlers run in settlement-arrival order on a
  single-threaded event loop.
* An outcome of type `Option _` uses `none` for "the promise never settles".
-/

/-- A JavaScript error object, reduced to the fields the library inspects. -/
structure JSError where
  name : String
  message : String
deriving DecidableEq, Repr

/-- The `AbortError` value constructed by `new AbortError()` in `AbortError.ts`:
its `name` is set to `"AbortError"`. -/
def AbortError : JSError :=
  { name := "AbortError", message := "The operation has been aborted" }

/-- `isAbortError` from `AbortError.ts`: a structural check on the `name`
discriminator, not a type-identity check. -/
def isAbortError (e : JSError) : Bool :=
  e.name == "AbortError"

/-- A `PromiseSettledResult` as used in `race.ts`. -/
inductive SettledResult (α : Type) where
  | fulfilled (value : α)
  | rejected (reason : JSError)
deriving DecidableEq, Repr

/-- `true` exactly on a rejection whose reason is not an `AbortError`. -/
def SettledResult.isGenuineRejection : SettledResult α → Bool
  | .fulfilled _ => false
  | .rejected r => !(isAbortError r)

/-! ## race (`race.ts`)

The shared mutable `result` variable of `race.ts` is threaded through a fold
over the settlement events.  `race.update` is the body of the two `then`
handlers installed on every input promise (lines 75-95 of `race.ts`). -/

/-- One settlement event updates the recorded `result` variable of `race.ts`:
a fulfillment is recorded only when nothing is recorded yet; a rejection is
recorded when nothing is recorded yet, or when the new reason is not an
`AbortError` while the recorded result is a fulfillment or an `AbortError`
rejection. -/
def race.update (result : Option (SettledResult α)) (e : SettledResult α) :
    Option (SettledResult α) :=
  match e with
  | .fulfilled v =>
    match result with
    | none => some (.fulfilled v)
    | some r => some r
  | .rejected reason =>
    match result with
    | none => some (.rejected reason)
    | some r =>
      if !(isAbortError reason) &&
          (match r with
           | .fulfilled _ => true
           | .rejected prev => isAbortError prev) then
        some (.rejected reason)
      else
        some r

/-- The recorded `result` of `race.ts` after all settlement events arrived. -/
def race.recorded (events : List (SettledResult α)) : Option (SettledResult α) :=
  events.foldl race.update none

/-- The outcome of `race(signal, executor)`: `aborted` is the state of the
outer signal at entry, `events` the settlement events of the input promises
in arrival order (one per input, since `race` settles only once
`settledCount` reaches the number of inputs).  `none` means the returned
promise never settles (zero inputs). -/
def race (aborted : Bool) (events : List (SettledResult α)) :
    Option (SettledResult α) :=
  if aborted then some (.rejected AbortError)
  else race.recorded events

/-- The outcome the claim's priority rule prescribes: first fulfillment if
any, else first genuine (non-`AbortError`) rejection if any, else the first
event. -/
def race.specChoice (events : List (SettledResult α)) :
    Option (SettledResult α) :=
  match events.find? (fun e => match e with | .fulfilled _ => true | _ => false) with
  | some e => some e
  | none =>
    match events.find? SettledResult.isGenuineRejection with
    | some e => some e
    | none => events.head?

/-- What the code actually computes: the first genuine (non-`AbortError`)
rejection if any settlement event is one, otherwise the first settlement
event. -/
def race.actualChoice (events : List (SettledResult α)) :
    Option (SettledResult α) :=
  match events.find? SettledResult.isGenuineRejection with
  | some e => some e
  | none => events.head?

/-- A sample genuine (non-abort) error. -/
def boomError : JSError := { name := "Error", message := "boom" }

section RaceLemmas

variable {α : Type}

/-- A recorded genuine rejection is never overwritten. -/
theorem race.update_genuine_absorb (r : JSError) (h : isAbortError r = false)
    (e : SettledResult α) :
    race.update (some (.rejected r)) e = some (.rejected r) := by
  cases e with
  | fulfilled v => rfl
  | rejected reason =>
    simp [race.update, h]

theorem race.foldl_genuine_absorb (r : JSError) (h : isAbortError r = false)
    (events : List (SettledResult α)) :
    events.foldl race.update (some (.rejected r)) = some (.rejected r) := by
  induction events with
  | nil => rfl
  | cons e rest ih =>
    rw [List.foldl_cons, race.update_genuine_absorb r h e, ih]

/-- Starting from a non-genuine recorded result, the fold returns the first
genuine rejection of the remaining events, or keeps the start value. -/
theorem race.foldl_nongenuine (s : SettledResult α)
    (hs : s.isGenuineRejection = false) (events : List (SettledResult α)) :
    events.foldl race.update (some s) =
      match events.find? SettledResult.isGenuineRejection with
      | some e => some e
      | none => some s := by
  induction events generalizing s with
  | nil => rfl
  | cons e rest ih =>
    by_cases hg : e.isGenuineRejection = true
    · cases e with
      | fulfilled v => simp [SettledResult.isGenuineRejection] at hg
      | rejected reason =>
        simp only [SettledResult.isGenuineRejection, Bool.not_eq_true'] at hg
        have hupd : race.update (some s) (.rejected reason) =
            some (.rejected reason) := by
          cases s with
          | fulfilled v => simp [race.update, hg]
          | rejected prev =>
            simp only [SettledResult.isGenuineRejection,
              Bool.not_eq_eq_eq_not, Bool.not_true] at hs
            simp [race.update, hg, hs]
        rw [List.foldl_cons, hupd,
          race.foldl_genuine_absorb reason hg rest, List.find?_cons_of_pos]
        simp [SettledResult.isGenuineRejection, hg]
    · have hg' : e.isGenuineRejection = false := by
        simpa using hg
      have hupd : race.update (some s) e = some s := by
        cases e with
        | fulfilled v => rfl
        | rejected reason =>
          simp only [SettledResult.isGenuineRejection,
            Bool.not_eq_true'] at hg'
          cases s with
          | fulfilled v => simp [race.update, hg']
          | rejected prev => simp [race.update, hg']
      rw [List.foldl_cons, hupd, ih s hs, List.find?_cons_of_neg]
      simpa using hg'

end RaceLemmas

/-- C1 (amended): for `race(signal, executor)` with a non-aborted outer signal
and every input settling, the final outcome is the first-arriving genuine
(non-`AbortError`) failure when any settlement event is one; otherwise it is
the first-arriving settlement event (fulfillment or `AbortError` failure).
In particular a fulfillment wins only when it arrives before every failure
event, and a genuine failure wins even over an earlier fulfillment. -/
theorem c1_race_priority_amended {α : Type} (events : List (SettledResult α))
    (h : events ≠ []) :
    race false events = race.actualChoice events := by
  match events with
  | [] => exact absurd rfl h
  | e :: rest =>
    have hrace : race false (e :: rest) = (e :: rest).foldl race.update none := by
      simp [race, race.recorded]
    have hstart : race.update none e = some e := by
      cases e <;> rfl
    by_cases hg : e.isGenuineRejection = true
    · cases e with
      | fulfilled v => simp [SettledResult.isGenuineRejection] at hg
      | rejected reason =>
        simp only [SettledResult.isGenuineRejection, Bool.not_eq_true'] at hg
        rw [hrace, List.foldl_cons, hstart,
          race.foldl_genuine_absorb reason hg rest]
        rw [race.actualChoice, List.find?_cons_of_pos]
        simp [SettledResult.isGenuineRejection, hg]
    · have hg' : e.isGenuineRejection = false := by simpa using hg
      rw [hrace, List.foldl_cons, hstart, race.foldl_nongenuine e hg' rest]
      rw [race.actualChoice, List.find?_cons_of_neg _ (by simpa using hg')]
      cases hfind : rest.find? SettledResult.isGenuineRejection <;> simp [hfind]

/-- Witness: `c1_race_priority_amended` applied to the single-event list
`[fulfilled 3]`, whose outcome is that fulfillment. -/
theorem c1_race_priority_amended_witness :
    ([SettledResult.fulfilled (3:Nat)] ≠ ([] : List (SettledResult Nat))) ∧
    race false [SettledResult.fulfilled (3:Nat)] =
      race.actualChoice [SettledResult.fulfilled (3:Nat)] :=
  ⟨by decide, c1_race_priority_amended _ (by decide)⟩

/-- Counterexample to C1 as stated: with settlement order
`fulfilled 0` then genuine rejection `boomError`, the code rejects with
`boomError`, while the claimed priority rule (fulfillment outranks any
failure) would fulfill with `0`. -/
theorem c1_race_priority_counterexample :
    race false [SettledResult.fulfilled (0:Nat), .rejected boomError] =
      some (.rejected boomError) ∧
    race.specChoice [SettledResult.fulfilled (0:Nat), .rejected boomError] =
      some (.fulfilled 0) ∧
    race false [SettledResult.fulfilled (0:Nat), .rejected boomError] ≠
      race.specChoice [SettledResult.fulfilled (0:Nat), .rejected boomError] := by
  decide

/-! ## all (`all.ts`)

The state of `all` is the shared `rejection` variable, the positional
`results` array (modelled as a list of `Option α`, `none` marking a hole of
the uninitialised JS array) and `settledCount`.  Settlement events carry the
input's index. -/

structure AllState (α : Type) where
  rejection : Option JSError
  results : List (Option α)
  settledCount : Nat
deriving DecidableEq, Repr

/-- The rejection-recording rule of `all.ts` (lines 270-281): the first
rejection is recorded; a later non-`AbortError` reason replaces a recorded
`AbortError` reason; nothing else replaces anything. -/
def all.recordRejection (rejection : Option JSError) (reason : JSError) :
    Option JSError :=
  match rejection with
  | none => some reason
  | some prev =>
    if !(isAbortError reason) && isAbortError prev then some reason
    else some prev

/-- The two `then` handler bodies of `all.ts` (lines 263-283). -/
def all.step (s : AllState α) (e : Nat × SettledResult α) : AllState α :=
  match e.2 with
  | .fulfilled v =>
    { s with results := s.results.set e.1 (some v),
             settledCount := s.settledCount + 1 }
  | .rejected reason =>
    { s with rejection := all.recordRejection s.rejection reason,
             settledCount := s.settledCount + 1 }

/-- State of `all` over `n` inputs after the settlement events `events`
arrived in order. -/
def all.run (n : Nat) (events : List (Nat × SettledResult α)) : AllState α :=
  events.foldl all.step ⟨none, List.replicate n none, 0⟩

/-- The outcome of `all(signal, executor)` with `n` inputs: `AbortError` on
the already-aborted fast path; the empty array on the empty-input fast path;
otherwise it settles once `settledCount` reaches `n`, rejecting with the
recorded rejection if there is one and fulfilling with the results array
otherwise. -/
def all (aborted : Bool) (n : Nat) (events : List (Nat × SettledResult α)) :
    Option (Except JSError (List (Option α))) :=
  if aborted then some (.error AbortError)
  else if n = 0 then some (.ok [])
  else
    let s := all.run n events
    if s.settledCount = n then
      some (match s.rejection with
        | some r => .error r
        | none => .ok s.results)
    else none

/-- The reasons of the rejection events among `events`, in arrival order. -/
def all.rejections (events : List (Nat × SettledResult α)) : List JSError :=
  events.filterMap (fun e =>
    match e.2 with
    | .fulfilled _ => none
    | .rejected r => some r)

/-- The reason `all` is expected to reject with: the first non-`AbortError`
reason among the rejection reasons if one exists, else the first rejection
reason. -/
def all.winningReason (rs : List JSError) : Option JSError :=
  match rs.find? (fun r => !(isAbortError r)) with
  | some g => some g
  | none => rs.head?

section AllLemmas

variable {α : Type}

theorem all.settledCount_foldl (events : List (Nat × SettledResult α))
    (s : AllState α) :
    (events.foldl all.step s).settledCount = s.settledCount + events.length := by
  induction events generalizing s with
  | nil => simp
  | cons e rest ih =>
    rw [List.foldl_cons, ih]
    cases h : e.2 <;> simp [all.step, h] <;> omega

theorem all.rejection_foldl (events : List (Nat × SettledResult α))
    (s : AllState α) :
    (events.foldl all.step s).rejection =
      (all.rejections events).foldl all.recordRejection s.rejection := by
  induction events generalizing s with
  | nil => rfl
  | cons e rest ih =>
    rw [List.foldl_cons, ih]
    cases h : e.2 with
    | fulfilled v => simp [all.rejections, all.step, h]
    | rejected r => simp [all.rejections, all.step, h]

theorem all.recordRejection_genuine_absorb (prev : JSError)
    (h : isAbortError prev = false) (reason : JSError) :
    all.recordRejection (some prev) reason = some prev := by
  simp [all.recordRejection, h]

theorem all.foldl_record_genuine_absorb (prev : JSError)
    (h : isAbortError prev = false) (rs : List JSError) :
    rs.foldl all.recordRejection (some prev) = some prev := by
  induction rs with
  | nil => rfl
  | cons r rest ih =>
    rw [List.foldl_cons, all.recordRejection_genuine_absorb prev h r, ih]

theorem all.foldl_record_abort (prev : JSError)
    (h : isAbortError prev = true) (rs : List JSError) :
    rs.foldl all.recordRejection (some prev) =
      match rs.find? (fun r => !(isAbortError r)) with
      | some g => some g
      | none => some prev := by
  induction rs generalizing prev with
  | nil => rfl
  | cons r rest ih =>
    by_cases hr : isAbortError r = true
    · have hupd : all.recordRejection (some prev) r = some prev := by
        simp [all.recordRejection, hr]
      rw [List.foldl_cons, hupd, ih prev h, List.find?_cons_of_neg _ (by simp [hr])]
    · have hr' : isAbortError r = false := by simpa using hr
      have hupd : all.recordRejection (some prev) r = some r := by
        simp [all.recordRejection, hr', h]
      rw [List.foldl_cons, hupd, all.foldl_record_genuine_absorb r hr' rest,
        List.find?_cons_of_pos _ (by simp [hr'])]

theorem all.foldl_record_none (rs : List JSError) :
    rs.foldl all.recordRejection none = all.winningReason rs := by
  match rs with
  | [] => rfl
  | r :: rest =>
    have hstart : all.recordRejection none r = some r := rfl
    by_cases hr : isAbortError r = true
    · rw [List.foldl_cons, hstart, all.foldl_record_abort r hr rest,
        all.winningReason, List.find?_cons_of_neg _ (by simp [hr])]
      cases hfind : rest.find? (fun x => !(isAbortError x)) <;> simp [hfind]
    · have hr' : isAbortError r = false := by simpa using hr
      rw [List.foldl_cons, hstart, all.foldl_record_genuine_absorb r hr' rest,
        all.winningReason, List.find?_cons_of_pos _ (by simp [hr'])]

end AllLemmas

section AllResultsLemmas

variable {α : Type}

theorem all.results_length (events : List (Nat × SettledResult α))
    (s : AllState α) :
    (events.foldl all.step s).results.length = s.results.length := by
  induction events generalizing s with
  | nil => rfl
  | cons e rest ih =>
    rw [List.foldl_cons, ih]
    cases h : e.2 <;> simp [all.step, h]

theorem all.results_untouched (events : List (Nat × SettledResult α))
    (s : AllState α) (i : Nat) (h : ∀ e ∈ events, e.1 ≠ i) :
    (events.foldl all.step s).results[i]? = s.results[i]? := by
  induction events generalizing s with
  | nil => rfl
  | cons e rest ih =>
    rw [List.foldl_cons, ih _ (fun x hx => h x (List.mem_cons_of_mem e hx))]
    have hne : e.1 ≠ i := h e (List.mem_cons_self e rest)
    cases he : e.2 <;> simp [all.step, he, List.getElem?_set_ne hne]

theorem all.results_filled (v : Nat → α) (n : Nat)
    (events : List (Nat × SettledResult α)) (s : AllState α)
    (hwf : ∀ e ∈ events, ∃ j, j < n ∧ e = (j, .fulfilled (v j)))
    (hlen : s.results.length = n) (i : Nat)
    (happ : ∃ e ∈ events, e.1 = i) :
    (events.foldl all.step s).results[i]? = some (some (v i)) := by
  induction events generalizing s with
  | nil =>
    obtain ⟨e, he, _⟩ := happ
    exact absurd he (List.not_mem_nil e)
  | cons e rest ih =>
    obtain ⟨j, hj, hej⟩ := hwf e (List.mem_cons_self e rest)
    subst hej
    rw [List.foldl_cons]
    by_cases hrest : ∃ x ∈ rest, x.1 = i
    · exact ih _ (fun x hx => hwf x (List.mem_cons_of_mem _ hx))
        (by simpa [all.step] using hlen) hrest
    · have hji : j = i := by
        obtain ⟨x, hx, hxi⟩ := happ
        rcases List.mem_cons.mp hx with hx | hx
        · rw [hx] at hxi; exact hxi
        · exact absurd ⟨x, hx, hxi⟩ hrest
      subst hji
      rw [all.results_untouched rest _ j
        (fun x hx => fun hxj => hrest ⟨x, hx, hxj⟩)]
      simp only [all.step]
      rw [List.getElem?_set_self (by omega)]

end AllResultsLemmas

/-- C3 (confirmed): for `all(signal, executor)` with a non-empty input list,
a non-aborted outer signal, every input settling and at least one rejecting,
`all` rejects with the first non-`AbortError` rejection reason if one
exists, else with the first rejection reason; whenever some rejection is
genuine, the surfaced reason is not an `AbortError`. -/
theorem c3_all_failure_priority {α : Type} (n : Nat)
    (events : List (Nat × SettledResult α))
    (hn : n ≠ 0) (hlen : events.length = n)
    (hrej : all.rejections events ≠ []) :
    (all false n events).isSome ∧
    all false n events = (all.winningReason (all.rejections events)).map .error ∧
    (∀ r, (all.rejections events).find? (fun x => !(isAbortError x)) = some r →
      all false n events = some (.error r) ∧ isAbortError r = false) := by
  have hcount : (all.run n events).settledCount = n := by
    rw [all.run, all.settledCount_foldl]
    simpa using hlen
  have hrcd : (all.run n events).rejection =
      all.winningReason (all.rejections events) := by
    rw [all.run, all.rejection_foldl]
    exact all.foldl_record_none _
  have hws : (all.winningReason (all.rejections events)).isSome := by
    rw [all.winningReason]
    cases hfind : (all.rejections events).find? (fun x => !(isAbortError x)) with
    | some g => simp
    | none =>
      cases hr : all.rejections events with
      | nil => exact absurd hr hrej
      | cons a t => simp
  obtain ⟨w, hw⟩ := Option.isSome_iff_exists.mp hws
  have hall : all false n events =
      (all.winningReason (all.rejections events)).map Except.error := by
    simp only [all, Bool.false_eq_true, if_false, if_neg hn, hcount,
      if_pos rfl, hrcd, hw]
    rfl
  refine ⟨?_, hall, ?_⟩
  · rw [hall, hw]; rfl
  · intro r hfind
    have hwin : all.winningReason (all.rejections events) = some r := by
      rw [all.winningReason, hfind]
    refine ⟨by rw [hall, hwin]; rfl, ?_⟩
    simpa using (List.find?_some hfind)

/-- Witness: `c3_all_failure_priority` on two inputs where input 0 rejects
with `AbortError` first and input 1 rejects with the genuine `boomError`
later: `all` rejects with `boomError`. -/
theorem c3_all_failure_priority_witness :
    (2 ≠ 0 ∧
      ([((0:Nat), SettledResult.rejected (α := Nat) AbortError),
        (1, .rejected boomError)].length = 2) ∧
      all.rejections [((0:Nat), SettledResult.rejected (α := Nat) AbortError),
        (1, .rejected boomError)] ≠ []) ∧
    all false 2 [((0:Nat), SettledResult.rejected (α := Nat) AbortError),
        (1, .rejected boomError)] =
      (all.winningReason (all.rejections
        [((0:Nat), SettledResult.rejected (α := Nat) AbortError),
         (1, .rejected boomError)])).map .error :=
  ⟨⟨by decide, by decide, by decide⟩,
    (c3_all_failure_priority 2 _ (by decide) (by decide) (by decide)).2.1⟩

/-- The settlement events of an `all` call whose `n` inputs all fulfill,
input `i` with value `v i`, listed in input order. -/
def all.canonicalEvents (n : Nat) (v : Nat → α) :
    List (Nat × SettledResult α) :=
  (List.range n).map (fun i => (i, .fulfilled (v i)))

/-- C8 (confirmed): when the outer signal is never aborted and the `n`
inputs of `all` all fulfill, input `i` with value `v i`, `all` fulfills with
the array placing `v i` at position `i` — for every arrival order
(permutation) of the input settlements. -/
theorem c8_all_position_preserving {α : Type} (n : Nat) (v : Nat → α)
    (events : List (Nat × SettledResult α))
    (hperm : events.Perm (all.canonicalEvents n v)) :
    all false n events =
      some (.ok ((List.range n).map (fun i => some (v i)))) := by
  by_cases hn : n = 0
  · subst hn
    have hcan : all.canonicalEvents 0 v = [] := by
      simp [all.canonicalEvents]
    have hev : events = [] := by
      have := hperm
      rw [hcan] at this
      exact this.eq_nil
    subst hev
    simp [all]
  · have hwf : ∀ e ∈ events, ∃ j, j < n ∧ e = (j, .fulfilled (v j)) := by
      intro e he
      have : e ∈ all.canonicalEvents n v := (hperm.mem_iff).mp he
      simp only [all.canonicalEvents, List.mem_map, List.mem_range] at this
      obtain ⟨j, hj, hje⟩ := this
      exact ⟨j, hj, hje.symm⟩
    have hlen : events.length = n := by
      have := hperm.length_eq
      simpa [all.canonicalEvents] using this
    have hcount : (all.run n events).settledCount = n := by
      rw [all.run, all.settledCount_foldl]
      simpa using hlen
    have hrej : all.rejections events = [] := by
      rw [all.rejections, List.filterMap_eq_nil_iff]
      intro e he
      obtain ⟨j, _, hje⟩ := hwf e he
      subst hje
      rfl
    have hrcd : (all.run n events).rejection = none := by
      rw [all.run, all.rejection_foldl, hrej]
      rfl
    have hres : (all.run n events).results =
        (List.range n).map (fun i => some (v i)) := by
      apply List.ext_getElem?
      intro i
      by_cases hi : i < n
      · have happ : ∃ e ∈ events, e.1 = i := by
          have : ((i, SettledResult.fulfilled (v i)) : Nat × SettledResult α) ∈
              all.canonicalEvents n v := by
            simp only [all.canonicalEvents, List.mem_map, List.mem_range]
            exact ⟨i, hi, rfl⟩
          exact ⟨(i, .fulfilled (v i)), (hperm.mem_iff).mpr this, rfl⟩
        rw [all.run, all.results_filled v n events _ hwf (by simp) i happ]
        rw [List.getElem?_map, List.getElem?_range hi]
        rfl
      · have hlhs : (all.run n events).results[i]? = none := by
          apply List.getElem?_eq_none
          rw [all.run, all.results_length]
          simpa using Nat.le_of_not_lt hi
        have hrhs : ((List.range n).map (fun i => some (v i)))[i]? = none := by
          apply List.getElem?_eq_none
          simpa using Nat.le_of_not_lt hi
        rw [hlhs, hrhs]
    simp only [all, Bool.false_eq_true, if_false, if_neg hn, hcount,
      if_pos rfl, hrcd, hres]
    simp

/-- Witness: `c8_all_position_preserving` with two inputs settling in
reverse input order: input 1 (value 20) settles first, input 0 (value 10)
second; `all` still fulfills with `[10, 20]`. -/
theorem c8_all_position_preserving_witness :
    ([((1:Nat), SettledResult.fulfilled (20:Nat)), (0, .fulfilled 10)].Perm
      (all.canonicalEvents 2 (fun i => 10 * (i + 1)))) ∧
    all false 2 [((1:Nat), SettledResult.fulfilled (20:Nat)), (0, .fulfilled 10)] =
      some (.ok ((List.range 2).map (fun i => some (10 * (i + 1))))) :=
  ⟨by decide, c8_all_position_preserving 2 _ _ (by decide)⟩

deriving instance DecidableEq for Except

/-! ## execute (`execute.ts`)

`execute` is modelled by the possible interleavings of its three event
sources: the two completion callbacks handed to the executor, and the abort
listener.  A scenario names which of them fires first (the "first call wins"
rule makes the rest irrelevant), and whether a completion callback fired
synchronously during the executor call itself. -/

/-- What the abort callback returned by the executor produces when invoked:
either no pending action (`void`), or a pending promise with its eventual
settlement. -/
inductive CleanupResult where
  | immediate
  | pending (outcome : Except JSError Unit)
deriving DecidableEq, Repr

/-- The interleavings of one `execute(signal, executor)` call. -/
inductive ExecuteScenario (α : Type) where
  /-- `signal.aborted` already at entry. -/
  | alreadyAborted
  /-- `resolve(v)` fires before any abort; `inExecutor` tells whether it
  fired synchronously during the executor call. -/
  | resolveFirst (v : α) (inExecutor : Bool)
  /-- `reject(r)` fires before any abort. -/
  | rejectFirst (r : JSError) (inExecutor : Bool)
  /-- the signal aborts before either completion callback. -/
  | abortFirst (cleanup : CleanupResult)
deriving DecidableEq, Repr

/-- Observable trace of one `execute` call. -/
structure ExecuteTrace (α : Type) where
  outcome : Option (Except JSError α)
  executorInvoked : Bool
  cleanupCalls : Nat
  addListenerCalls : Nat
  removeListenerCalls : Nat
deriving DecidableEq, Repr

/-- `execute` from `execute.ts`, scenario by scenario. -/
def executeModel (sc : ExecuteScenario α) : ExecuteTrace α :=
  match sc with
  | .alreadyAborted =>
    -- lines 22-25: reject(new AbortError()) and return; the executor is
    -- never invoked and no listener is ever added
    { outcome := some (.error AbortError), executorInvoked := false,
      cleanupCalls := 0, addListenerCalls := 0, removeListenerCalls := 0 }
  | .resolveFirst v inExecutor =>
    if inExecutor then
      -- `finished` is already true when line 50 runs, so the abort listener
      -- is never added and the cleanup callback is never invoked
      { outcome := some (.ok v), executorInvoked := true,
        cleanupCalls := 0, addListenerCalls := 0, removeListenerCalls := 0 }
    else
      -- listener added at line 70; the completion callback then fires
      -- first, so `finish()` removes the listener and the cleanup callback
      -- is never invoked
      { outcome := some (.ok v), executorInvoked := true,
        cleanupCalls := 0, addListenerCalls := 1, removeListenerCalls := 1 }
  | .rejectFirst r inExecutor =>
    if inExecutor then
      { outcome := some (.error r), executorInvoked := true,
        cleanupCalls := 0, addListenerCalls := 0, removeListenerCalls := 0 }
    else
      { outcome := some (.error r), executorInvoked := true,
        cleanupCalls := 0, addListenerCalls := 1, removeListenerCalls := 1 }
  | .abortFirst cleanup =>
    -- the abort listener (lines 51-68) invokes the cleanup callback once;
    -- `callbackResult == null` rejects with AbortError immediately, a
    -- pending result is awaited: its fulfillment rejects with AbortError,
    -- its failure rejects with that failure; `finish()` removes the listener
    { outcome := some (match cleanup with
        | .immediate => .error AbortError
        | .pending (.ok _) => .error AbortError
        | .pending (.error e) => .error e),
      executorInvoked := true, cleanupCalls := 1,
      addListenerCalls := 1, removeListenerCalls := 1 }

/-- C4 (confirmed): when the signal is not initially aborted and
cancellation fires before either completion callback, `execute` invokes the
cleanup callback exactly once; with no pending action it rejects with
`AbortError`, with a pending action it rejects with `AbortError` if that
action fulfills and with the action's own failure if it fails. -/
theorem c4_execute_abort_cleanup {α : Type} (c : CleanupResult) :
    (executeModel (α := α) (.abortFirst c)).cleanupCalls = 1 ∧
    (executeModel (α := α) (.abortFirst c)).outcome =
      some (match c with
        | .immediate => .error AbortError
        | .pending (.ok _) => .error AbortError
        | .pending (.error e) => .error e) :=
  ⟨rfl, rfl⟩

/-! ## abortable (`abortable.ts`, src/unnamed/part_007)

`abortable(signal, promise)` attaches no-op handlers to the promise when the
signal is already aborted, then delegates to `execute` with an executor that
forwards the promise's settlement and returns a no-op cleanup callback. -/

/-- Observable trace of one `abortable` call. -/
structure AbortableTrace (α : Type) where
  outcome : Option (Except JSError α)
  noopHandlersAttached : Bool
  promiseHandlersAttached : Bool
  addListenerCalls : Nat
  removeListenerCalls : Nat
deriving DecidableEq, Repr

/-- Which `execute` scenario an `abortable` call lands in: the already
aborted fast path, or the forwarded settlement of the underlying promise
(which always arrives asynchronously, after the executor returned). -/
def abortable.scenario (aborted : Bool) (p : Except JSError α) :
    ExecuteScenario α :=
  if aborted then .alreadyAborted
  else match p with
    | .ok v => .resolveFirst v false
    | .error e => .rejectFirst e false

/-- `abortable` from part_007: `aborted` is the signal state at entry, `p`
the eventual settlement of the underlying promise (signal assumed not
aborted afterwards).  The executor — hence the attachment of
`promise.then(resolve, reject)` — runs exactly when `execute` does not take
its fast path. -/
def abortable (aborted : Bool) (p : Except JSError α) : AbortableTrace α :=
  let t := executeModel (abortable.scenario aborted p)
  { outcome := t.outcome,
    noopHandlersAttached := aborted,
    promiseHandlersAttached := t.executorInvoked,
    addListenerCalls := t.addListenerCalls,
    removeListenerCalls := t.removeListenerCalls }

/-- C10 (confirmed): `abortable` on an already-aborted signal rejects with
`AbortError` without subscribing to the signal; the underlying promise's
settlement is never surfaced (the outcome is independent of it) and its
handlers are never attached, while no-op handlers are attached to swallow
its eventual rejection. -/
theorem c10_abortable_already_aborted {α : Type} (p q : Except JSError α) :
    (abortable true p).outcome = some (.error AbortError) ∧
    (abortable true p).addListenerCalls = 0 ∧
    (abortable true p).removeListenerCalls = 0 ∧
    (abortable true p).promiseHandlersAttached = false ∧
    (abortable true p).noopHandlersAttached = true ∧
    abortable true p = abortable true q :=
  ⟨rfl, rfl, rfl, rfl, rfl, rfl⟩

/-! ## spawn (src/unnamed/part_006)

One `spawn(signal, fn)` call is modelled as a state machine over events:
`fork` invocations, task settlements (in arrival order) and outer-signal
abort.  The root body is tracked through the same `fork` primitive as the
children, under task id 0; the fold applies `forkCall 0` before the trace.
Deferred actions are a separate list (registration order) because `defer`
only pushes onto `deferredFunctions`; they run after the inner promise
settles. -/

/-- The mutable state of one `spawn` call.  `forked` is an instrumentation
field recording every id registered by an effective (non-stub) `fork`. -/
structure SpawnState (α : Type) where
  /-- `spawnSignal.aborted` -/
  spawnAborted : Bool
  /-- ids of the members of the live `tasks` set -/
  live : List Nat
  /-- the shared `failure` variable -/
  failure : Option JSError
  /-- the shared `result` variable (root's fulfilled value) -/
  result : Option α
  /-- settlement of the inner promise; `none` while pending -/
  primary : Option (Except JSError α)
  /-- whether `abortSpawn` is still subscribed to the outer signal -/
  outerListenerAttached : Bool
  outerAddCalls : Nat
  outerRemoveCalls : Nat
  forked : List Nat
deriving DecidableEq, Repr

/-- Events driving one `spawn` call. -/
inductive SpawnEvent (α : Type) where
  /-- `fork(childFn)` invoked, with fresh id `id` (0 is the root). -/
  | forkCall (id : Nat)
  /-- the promise of task `id` settles with `r`. -/
  | taskSettle (id : Nat) (r : Except JSError α)
  /-- the outer signal aborts. -/
  | outerAbort
deriving DecidableEq, Repr

/-- Net effect of a task settlement on the shared `(failure, result)` pair:
* root (id 0) fulfilled `v`: the `join().then` value handler sets `result`;
* root rejected `e`: the `join().then` error handler assigns `failure` when
  `!isAbortError(error) || failure == null`; for genuine `e` the fork
  chain's second catch assigns the same value again;
* fork fulfilled: no assignment;
* fork rejected `e`: `catchAbortError` swallows an `AbortError`; a genuine
  `e` reaches the second catch, which assigns `failure` unconditionally. -/
def spawn.record (fr : Option JSError × Option α) (id : Nat)
    (r : Except JSError α) : Option JSError × Option α :=
  if id = 0 then
    match r with
    | .ok v => (fr.1, some v)
    | .error e =>
      if !(isAbortError e) || fr.1.isNone then (some e, fr.2) else fr
  else
    match r with
    | .ok _ => fr
    | .error e => if !(isAbortError e) then (some e, fr.2) else fr

/-- Whether this settlement calls `spawnAbortController.abort()`: the root's
settlement (either handler of `join().then`) always does; a fork's genuine
failure does. -/
def spawn.settleAborts (id : Nat) (r : Except JSError α) : Bool :=
  id == 0 || (match r with | .ok _ => false | .error e => !(isAbortError e))

/-- The final `resolve`/`reject` of the inner promise (part_006 lines
222-228): the recorded failure if any, else the recorded root value. The
last branch is unreachable: the live set only empties after the root
settled, which set `failure` or `result`. -/
def spawn.primaryOf (fr : Option JSError × Option α) : Except JSError α :=
  match fr.1 with
  | some e => .error e
  | none =>
    match fr.2 with
    | some v => .ok v
    | none => .error AbortError

/-- Settling the inner promise also runs the `promise.finally` callback that
removes the two internal subscriptions (part_006 lines 235-237). -/
def spawn.settlePrimary (s : SpawnState α) : SpawnState α :=
  if s.primary.isSome then s
  else
    { s with
      primary := some (spawn.primaryOf (s.failure, s.result)),
      outerListenerAttached := false,
      outerRemoveCalls := s.outerRemoveCalls + 1 }

/-- One event step of the `spawn` state machine. -/
def spawn.stepEvent (s : SpawnState α) (e : SpawnEvent α) : SpawnState α :=
  match e with
  | .forkCall id =>
    -- part_006 lines 186-195: a fork after spawn-local cancellation
    -- returns a pre-cancelled stub and registers nothing
    if s.spawnAborted then s
    else { s with live := s.live ++ [id], forked := s.forked ++ [id] }
  | .taskSettle id r =>
    if id ∈ s.live then
      let fr := spawn.record (s.failure, s.result) id r
      let s' : SpawnState α :=
        { s with
          failure := fr.1, result := fr.2,
          spawnAborted := s.spawnAborted || spawn.settleAborts id r,
          live := s.live.erase id }
      if s'.live = [] then spawn.settlePrimary s' else s'
    else s
  | .outerAbort =>
    if s.outerListenerAttached then { s with spawnAborted := true } else s

/-- State at entry of `spawn` (after the `addEventListener` on the outer
signal), before the root task is forked. -/
def spawn.initState : SpawnState α :=
  { spawnAborted := false, live := [], failure := none, result := none,
    primary := none, outerListenerAttached := true,
    outerAddCalls := 1, outerRemoveCalls := 0, forked := [] }

/-- State after the root task (id 0) is forked and `events` processed. -/
def spawn.run (events : List (SpawnEvent α)) : SpawnState α :=
  events.foldl spawn.stepEvent (spawn.stepEvent spawn.initState (.forkCall 0))

/-- `Promise.finally` composition for the cleanup chain: a failing cleanup
action replaces the accumulated outcome, a succeeding one keeps it. -/
def promiseFinallyStep (acc a : Except JSError Unit) : Except JSError Unit :=
  match a with
  | .ok _ => acc
  | .error e => .error e

/-- The loop of part_006 lines 241-243
(`for (let i = n-1; i >= 0; i--) deferPromise = deferPromise.finally(f[i])`):
returns the action indices in execution order, and the settlement of the
final `deferPromise`.  `acts` lists each deferred action's own eventual
outcome, in registration order. -/
def spawn.deferRun (acts : List (Except JSError Unit)) :
    List Nat × Except JSError Unit :=
  ((List.range acts.length).reverse).foldl
    (fun st i => (st.1 ++ [i], promiseFinallyStep st.2 (acts.getD i (.ok ()))))
    ([], .ok ())

/-- The outcome of `spawn(signal, fn)`: `AbortError` on the already-aborted
fast path; otherwise the inner promise's settlement, with a failing
`deferPromise` replacing it (`promise.finally(() => ... return deferPromise)`).
`none` = never settles. -/
def spawn (aborted : Bool) (events : List (SpawnEvent α))
    (acts : List (Except JSError Unit)) : Option (Except JSError α) :=
  if aborted then some (.error AbortError)
  else
    match (spawn.run events).primary with
    | none => none
    | some p =>
      some (match (spawn.deferRun acts).2 with
        | .error e => .error e
        | .ok _ => p)

/-- The settlement events of a trace, in order. -/
def spawn.settles : List (SpawnEvent α) → List (Nat × Except JSError α)
  | [] => []
  | .taskSettle id r :: rest => (id, r) :: spawn.settles rest
  | _ :: rest => spawn.settles rest

/-- Trace validity from a given state: an effective `fork` registers a fresh
non-root id; a settlement is of a live task (each task settles exactly
once, stub forks never settle). -/
def spawn.valid : SpawnState α → List (SpawnEvent α) → Prop
  | _, [] => True
  | s, .forkCall id :: rest =>
    (s.spawnAborted = false → id ∉ s.forked ∧ id ≠ 0) ∧
      spawn.valid (spawn.stepEvent s (.forkCall id)) rest
  | s, .taskSettle id r :: rest =>
    id ∈ s.live ∧ spawn.valid (spawn.stepEvent s (.taskSettle id r)) rest
  | s, .outerAbort :: rest =>
    spawn.valid (spawn.stepEvent s .outerAbort) rest

/-- Fold of the settlement-recording rule over a settlement list. -/
def spawn.recordFold (init : Option JSError × Option α)
    (l : List (Nat × Except JSError α)) : Option JSError × Option α :=
  l.foldl (fun p e => spawn.record p e.1 e.2) init

/-- Characterization of a finished `spawn` state relative to the recording
fold `fr`. -/
def spawn.charPred (final : SpawnState α)
    (fr : Option JSError × Option α) : Prop :=
  final.failure = fr.1 ∧ final.result = fr.2 ∧
  (final.live = [] →
    final.primary = some (spawn.primaryOf fr) ∧
    final.outerRemoveCalls = 1 ∧ final.outerListenerAttached = false) ∧
  (final.live ≠ [] → final.primary = none ∧ final.outerRemoveCalls = 0)

section SpawnLemmas

variable {α : Type}

theorem spawn.settlePrimary_outerAddCalls (s : SpawnState α) :
    (spawn.settlePrimary s).outerAddCalls = s.outerAddCalls := by
  rw [spawn.settlePrimary]; split <;> rfl

theorem spawn.stepEvent_outerAddCalls (s : SpawnState α) (e : SpawnEvent α) :
    (spawn.stepEvent s e).outerAddCalls = s.outerAddCalls := by
  cases e with
  | forkCall id =>
    simp only [spawn.stepEvent]; split <;> rfl
  | taskSettle id r =>
    simp only [spawn.stepEvent]
    split
    · split
      · rw [spawn.settlePrimary_outerAddCalls]
      · rfl
    · rfl
  | outerAbort =>
    simp only [spawn.stepEvent]; split <;> rfl

theorem spawn.foldl_outerAddCalls (events : List (SpawnEvent α))
    (s : SpawnState α) :
    (events.foldl spawn.stepEvent s).outerAddCalls = s.outerAddCalls := by
  induction events generalizing s with
  | nil => rfl
  | cons e rest ih =>
    rw [List.foldl_cons, ih, spawn.stepEvent_outerAddCalls]

/-- After the inner promise settled (live set empty, spawn-local signal
aborted, outer listener removed), a valid trace leaves the state unchanged
and contains no further settlements. -/
theorem spawn.frozen (events : List (SpawnEvent α)) (s : SpawnState α)
    (hv : spawn.valid s events) (hl : s.live = [])
    (ha : s.spawnAborted = true) (hd : s.outerListenerAttached = false) :
    events.foldl spawn.stepEvent s = s ∧ spawn.settles events = [] := by
  induction events with
  | nil => exact ⟨rfl, rfl⟩
  | cons e rest ih =>
    cases e with
    | forkCall id =>
      simp only [spawn.valid] at hv
      have hstep : spawn.stepEvent s (.forkCall id) = s := by
        simp [spawn.stepEvent, ha]
      rw [List.foldl_cons, hstep]
      have hrest := ih (hstep ▸ hv.2)
      exact ⟨hrest.1, by simp [spawn.settles, hrest.2]⟩
    | taskSettle id r =>
      simp only [spawn.valid] at hv
      rw [hl] at hv
      exact absurd hv.1 (List.not_mem_nil id)
    | outerAbort =>
      simp only [spawn.valid] at hv
      have hstep : spawn.stepEvent s .outerAbort = s := by
        simp [spawn.stepEvent, hd]
      rw [List.foldl_cons, hstep]
      have hrest := ih (hstep ▸ hv)
      exact ⟨hrest.1, by simp [spawn.settles, hrest.2]⟩

/-- Main invariant: processing a valid trace from a running state (inner
promise pending, live set non-empty) yields a state characterized by the
fold of `spawn.record` over the trace's settlements. -/
theorem spawn.run_char (events : List (SpawnEvent α)) (s : SpawnState α)
    (hv : spawn.valid s events) (hp : s.primary = none)
    (hne : s.live ≠ []) (hnd : s.live.Nodup)
    (hsub : ∀ i ∈ s.live, i ∈ s.forked)
    (hroot : 0 ∈ s.live ∨ s.spawnAborted = true)
    (hat : s.outerListenerAttached = true) (hrm : s.outerRemoveCalls = 0) :
    spawn.charPred (events.foldl spawn.stepEvent s)
      (spawn.recordFold (s.failure, s.result) (spawn.settles events)) := by
  induction events generalizing s with
  | nil =>
    refine ⟨rfl, rfl, fun h => absurd h hne, fun _ => ⟨hp, hrm⟩⟩
  | cons e rest ih =>
    cases e with
    | forkCall id =>
      simp only [spawn.valid] at hv
      by_cases ha : s.spawnAborted = true
      · have hstep : spawn.stepEvent s (.forkCall id) = s := by
          simp [spawn.stepEvent, ha]
        rw [List.foldl_cons, hstep]
        have hset : spawn.settles (.forkCall id :: rest) =
            spawn.settles (α := α) rest := rfl
        rw [hset]
        exact ih s (hstep ▸ hv.2) hp hne hnd hsub hroot hat hrm
      · have ha' : s.spawnAborted = false := by
          simpa using ha
        obtain ⟨hfresh, hid0⟩ := hv.1 ha'
        have hstep : spawn.stepEvent s (.forkCall id) =
            { s with live := s.live ++ [id], forked := s.forked ++ [id] } := by
          simp [spawn.stepEvent, ha']
        rw [List.foldl_cons, hstep]
        have hset : spawn.settles (.forkCall id :: rest) =
            spawn.settles (α := α) rest := rfl
        rw [hset]
        refine ih _ (hstep ▸ hv.2) hp (by simp) ?_ ?_ ?_ hat hrm
        · have hidlive : id ∉ s.live := fun h => hfresh (hsub id h)
          simp [List.nodup_append, hnd, List.disjoint_singleton, hidlive]
        · intro i hi
          rcases List.mem_append.mp hi with h | h
          · exact List.mem_append.mpr (Or.inl (hsub i h))
          · exact List.mem_append.mpr (Or.inr h)
        · rcases hroot with h | h
          · exact Or.inl (List.mem_append.mpr (Or.inl h))
          · exact Or.inr h
    | outerAbort =>
      simp only [spawn.valid] at hv
      have hstep : spawn.stepEvent s .outerAbort =
          { s with spawnAborted := true } := by
        simp [spawn.stepEvent, hat]
      rw [List.foldl_cons, hstep]
      have hset : spawn.settles (.outerAbort :: rest) =
          spawn.settles (α := α) rest := rfl
      rw [hset]
      exact ih _ (hstep ▸ hv) hp hne hnd hsub (Or.inr rfl) hat hrm
    | taskSettle id r =>
      simp only [spawn.valid] at hv
      obtain ⟨hmem, hv2⟩ := hv
      by_cases hempty : s.live.erase id = []
      · have hstep : spawn.stepEvent s (.taskSettle id r) =
            spawn.settlePrimary
              { s with
                failure := (spawn.record (s.failure, s.result) id r).1,
                result := (spawn.record (s.failure, s.result) id r).2,
                spawnAborted := s.spawnAborted || spawn.settleAborts id r,
                live := s.live.erase id } := by
          simp only [spawn.stepEvent, if_pos hmem]
          rw [if_pos hempty]
        have haborted : (s.spawnAborted || spawn.settleAborts id r) = true := by
          by_cases h0 : id = 0
          · subst h0
            simp [spawn.settleAborts]
          · rcases hroot with h | h
            · exfalso
              have : 0 ∈ s.live.erase id :=
                (List.mem_erase_of_ne (fun hc => h0 hc.symm)).mpr h
              rw [hempty] at this
              exact List.not_mem_nil 0 this
            · simp [h]
        have hsp : spawn.settlePrimary
              { s with
                failure := (spawn.record (s.failure, s.result) id r).1,
                result := (spawn.record (s.failure, s.result) id r).2,
                spawnAborted := s.spawnAborted || spawn.settleAborts id r,
                live := s.live.erase id } =
            { s with
              failure := (spawn.record (s.failure, s.result) id r).1,
              result := (spawn.record (s.failure, s.result) id r).2,
              spawnAborted := s.spawnAborted || spawn.settleAborts id r,
              live := s.live.erase id,
              primary := some (spawn.primaryOf
                (spawn.record (s.failure, s.result) id r)),
              outerListenerAttached := false,
              outerRemoveCalls := s.outerRemoveCalls + 1 } := by
          rw [spawn.settlePrimary]
          rw [if_neg (by simp [hp])]
        rw [List.foldl_cons, hstep, hsp]
        have hv3 := hv2
        rw [hstep, hsp] at hv3
        have hfro := spawn.frozen rest _ hv3 hempty haborted rfl
        rw [hfro.1]
        have hset : spawn.settles (.taskSettle id r :: rest) =
            (id, r) :: spawn.settles rest := rfl
        rw [hset, hfro.2]
        refine ⟨rfl, rfl, fun _ => ⟨rfl, by rw [hrm], rfl⟩, fun h => ?_⟩
        exact absurd hempty h
      · have hstep : spawn.stepEvent s (.taskSettle id r) =
            { s with
              failure := (spawn.record (s.failure, s.result) id r).1,
              result := (spawn.record (s.failure, s.result) id r).2,
              spawnAborted := s.spawnAborted || spawn.settleAborts id r,
              live := s.live.erase id } := by
          simp only [spawn.stepEvent, if_pos hmem]
          rw [if_neg hempty]
        rw [List.foldl_cons, hstep]
        have hset : spawn.settles (.taskSettle id r :: rest) =
            (id, r) :: spawn.settles rest := rfl
        rw [hset]
        have hv3 := hv2
        rw [hstep] at hv3
        have hroot' : (0:Nat) ∈ s.live.erase id ∨
            (s.spawnAborted || spawn.settleAborts id r) = true := by
          by_cases h0 : id = 0
          · subst h0
            refine Or.inr ?_
            simp [spawn.settleAborts]
          · rcases hroot with h | h
            · exact Or.inl
                ((List.mem_erase_of_ne (fun hc => h0 hc.symm)).mpr h)
            · exact Or.inr (by simp [h])
        have hchar := ih _ hv3 hp hempty (hnd.erase id)
          (fun i hi => hsub i (List.mem_of_mem_erase hi)) hroot' hat hrm
        rw [spawn.recordFold, List.foldl_cons]
        exact hchar

end SpawnLemmas

/-- `true` on a failed cleanup-action outcome. -/
def exceptIsError : Except JSError Unit → Bool
  | .ok _ => false
  | .error _ => true

section DeferLemmas

theorem promiseFinallyStep_foldl (ys : List (Except JSError Unit))
    (init : Except JSError Unit) :
    ys.foldl promiseFinallyStep init =
      match ys.reverse.find? exceptIsError with
      | some a => a
      | none => init := by
  induction ys generalizing init with
  | nil => rfl
  | cons a t ih =>
    rw [List.foldl_cons, ih (promiseFinallyStep init a)]
    have hrev : (a :: t).reverse = t.reverse ++ [a] := by
      simp
    rw [hrev, List.find?_append]
    cases hfind : t.reverse.find? exceptIsError with
    | some x => simp [hfind]
    | none =>
      cases a with
      | ok u => simp [hfind, List.find?, exceptIsError, promiseFinallyStep]
      | error e => simp [hfind, List.find?, exceptIsError, promiseFinallyStep]

theorem spawn.deferRun_fst (acts : List (Except JSError Unit))
    (l : List Nat) (st : List Nat × Except JSError Unit) :
    (l.foldl (fun st i =>
        (st.1 ++ [i], promiseFinallyStep st.2 (acts.getD i (.ok ())))) st).1 =
      st.1 ++ l := by
  induction l generalizing st with
  | nil => simp
  | cons i t ih =>
    rw [List.foldl_cons, ih]
    simp

theorem spawn.deferRun_snd_aux (acts : List (Except JSError Unit))
    (l : List Nat) (st : List Nat × Except JSError Unit) :
    (l.foldl (fun st i =>
        (st.1 ++ [i], promiseFinallyStep st.2 (acts.getD i (.ok ())))) st).2 =
      (l.map (fun i => acts.getD i (.ok ()))).foldl promiseFinallyStep st.2 := by
  induction l generalizing st with
  | nil => simp
  | cons i t ih =>
    rw [List.foldl_cons, ih]
    simp

theorem spawn.deferRun_map_range (acts : List (Except JSError Unit)) :
    (List.range acts.length).map (fun i => acts.getD i (.ok ())) = acts := by
  apply List.ext_getElem
  · simp
  · intro i h1 h2
    simp [List.getElem?_eq_getElem h2]

/-- The execution log of the cleanup chain is exactly the registration
indices in reverse order. -/
theorem spawn.deferRun_log (acts : List (Except JSError Unit)) :
    (spawn.deferRun acts).1 = (List.range acts.length).reverse := by
  rw [spawn.deferRun, spawn.deferRun_fst]
  simp

/-- The settlement of the final `deferPromise`: the failure of the
first-registered failing action (the last one executed) if any action
fails, else fulfillment. -/
theorem spawn.deferRun_outcome (acts : List (Except JSError Unit)) :
    (spawn.deferRun acts).2 =
      match acts.find? exceptIsError with
      | some a => a
      | none => .ok () := by
  rw [spawn.deferRun, spawn.deferRun_snd_aux]
  rw [show ((List.range acts.length).reverse.map
      (fun i => acts.getD i (.ok ()))) =
      ((List.range acts.length).map (fun i => acts.getD i (.ok ()))).reverse
    from by simp]
  rw [spawn.deferRun_map_range, promiseFinallyStep_foldl]
  rw [List.reverse_reverse]

end DeferLemmas

section SpawnTopLemmas

variable {α : Type}

/-- An abort-named failure is recorded by the fold only from a root
settlement: fork `AbortError` rejections are swallowed by
`catchAbortError`, genuine ones have a non-abort name. -/
theorem spawn.recordFold_abort_from_root
    (l : List (Nat × Except JSError α)) (init : Option JSError × Option α)
    (e : JSError) (hf : (spawn.recordFold init l).1 = some e)
    (ha : isAbortError e = true) :
    init.1 = some e ∨ ((0:Nat), Except.error e) ∈ l := by
  induction l generalizing init with
  | nil => exact Or.inl hf
  | cons x t ih =>
    rw [spawn.recordFold, List.foldl_cons] at hf
    rcases ih _ hf with h | h
    · obtain ⟨id, r⟩ := x
      by_cases h0 : id = 0
      · subst h0
        cases r with
        | ok v =>
          simp only [spawn.record, if_pos rfl] at h
          exact Or.inl h
        | error e' =>
          simp only [spawn.record, if_pos rfl] at h
          by_cases hc : (!(isAbortError e') || init.1.isNone) = true
          · rw [if_pos hc] at h
            have he' : e' = e := by simpa using h
            subst he'
            exact Or.inr (List.mem_cons_self _ _)
          · rw [if_neg hc] at h
            exact Or.inl h
      · cases r with
        | ok v =>
          simp only [spawn.record, if_neg h0] at h
          exact Or.inl h
        | error e' =>
          simp only [spawn.record, if_neg h0] at h
          by_cases hg : isAbortError e' = false
          · rw [if_pos (by simp [hg])] at h
            simp only [Option.some_inj] at h
            rw [← h] at ha
            rw [ha] at hg
            exact absurd hg (by simp)
          · rw [if_neg (by simpa using hg)] at h
            exact Or.inl h
    · exact Or.inr (List.mem_cons_of_mem _ h)

/-- The running state right after `spawn` forked its root task. -/
theorem spawn.rootState :
    spawn.stepEvent (spawn.initState (α := α)) (.forkCall 0) =
      { spawnAborted := false, live := [0], failure := none, result := none,
        primary := none, outerListenerAttached := true,
        outerAddCalls := 1, outerRemoveCalls := 0, forked := [0] } := by
  simp [spawn.stepEvent, spawn.initState]

/-- Top-level consequence of `spawn.run_char`: on a valid trace whose tasks
all settle, the inner promise settles with the fold characterization and
the outer listener is removed exactly once. -/
theorem spawn.run_settles (events : List (SpawnEvent α))
    (hv : spawn.valid (spawn.stepEvent spawn.initState (.forkCall 0)) events)
    (hc : (spawn.run events).live = []) :
    (spawn.run events).primary =
      some (spawn.primaryOf
        (spawn.recordFold (none, none) (spawn.settles events))) ∧
    (spawn.run events).outerRemoveCalls = 1 ∧
    (spawn.run events).outerListenerAttached = false ∧
    (spawn.run events).outerAddCalls = 1 := by
  have hchar := spawn.run_char events
    (spawn.stepEvent spawn.initState (.forkCall 0)) hv
    (by rw [spawn.rootState]) (by rw [spawn.rootState]; simp)
    (by rw [spawn.rootState]; simp) (by rw [spawn.rootState]; simp)
    (by rw [spawn.rootState]; simp) (by rw [spawn.rootState])
    (by rw [spawn.rootState])
  have hinit : ((spawn.stepEvent (spawn.initState (α := α)) (.forkCall 0)).failure,
      (spawn.stepEvent (spawn.initState (α := α)) (.forkCall 0)).result) =
      ((none : Option JSError), (none : Option α)) := by
    rw [spawn.rootState]
  rw [hinit] at hchar
  obtain ⟨-, -, hset, -⟩ := hchar
  have h := hset hc
  have hadds : (spawn.run events).outerAddCalls = 1 := by
    rw [spawn.run, spawn.foldl_outerAddCalls, spawn.rootState]
  exact ⟨h.1, h.2.1, h.2.2, hadds⟩

end SpawnTopLemmas

/-- C2 (amended): for `spawn(signal, fn)` with the outer signal not
initially aborted and all tasks settling, the externally visible primary
result is the root body's fulfilled value unless a failure was recorded, in
which case the recorded failure wins, where recording follows part_006:
genuine (non-`AbortError`) failures from the root or any fork are always
recorded (a later one overwriting an earlier one), the root's own
`AbortError` rejection is recorded only when no failure is recorded yet,
and fork `AbortError` rejections are never recorded.  Consequently a
failure recognized as `AbortError` can surface as `spawn`'s own outcome,
but only when the root task itself rejected with it. -/
theorem c2_spawn_result_amended {α : Type} (events : List (SpawnEvent α))
    (hv : spawn.valid (spawn.stepEvent spawn.initState (.forkCall 0)) events)
    (hc : (spawn.run events).live = []) :
    spawn false events [] =
      some (spawn.primaryOf
        (spawn.recordFold (none, none) (spawn.settles events))) ∧
    (∀ e, (spawn.recordFold ((none : Option JSError), (none : Option α))
        (spawn.settles events)).1 = some e →
      isAbortError e = true →
      ((0:Nat), Except.error e) ∈ spawn.settles events) := by
  obtain ⟨hprim, -, -, -⟩ := spawn.run_settles events hv hc
  constructor
  · rw [spawn, if_neg (by simp), hprim]
    rfl
  · intro e hf ha
    rcases spawn.recordFold_abort_from_root _ _ e hf ha with h | h
    · exact absurd h (by simp)
    · exact h

/-- Witness: `c2_spawn_result_amended` on the trace where the root task
settles with value 5 and there are no forks: `spawn` fulfills with 5. -/
theorem c2_spawn_result_amended_witness :
    (spawn.valid (spawn.stepEvent (spawn.initState (α := Nat)) (.forkCall 0))
        [SpawnEvent.taskSettle 0 (Except.ok 5)] ∧
      (spawn.run [SpawnEvent.taskSettle 0 (Except.ok (5:Nat))]).live = []) ∧
    spawn false [SpawnEvent.taskSettle 0 (Except.ok (5:Nat))] [] =
      some (spawn.primaryOf (spawn.recordFold (none, none)
        (spawn.settles [SpawnEvent.taskSettle 0 (Except.ok (5:Nat))]))) :=
  ⟨⟨by simp [spawn.valid, spawn.stepEvent, spawn.initState], by decide⟩,
    (c2_spawn_result_amended _
      (by simp [spawn.valid, spawn.stepEvent, spawn.initState])
      (by decide)).1⟩

/-- Counterexample to C2 as stated: the root body itself rejects with an
`AbortError` (no forks, outer signal never aborted); `spawn` rejects with
that `AbortError`, so a failure recognized as cancellation *is* surfaced as
`spawn`'s own outcome. -/
theorem c2_spawn_result_counterexample :
    spawn false [SpawnEvent.taskSettle 0 (Except.error (α := Nat) AbortError)]
        [] = some (.error AbortError) ∧
    isAbortError AbortError = true := by
  constructor
  · decide
  · decide

/-- C5 (confirmed): deferred actions registered in order `a1 … an` run
serially in exact reverse registration order (the execution log is
`[n-1, …, 0]`; seriality and awaiting each asynchronous tail are the
`deferPromise.finally` chaining itself, folded in execution order), `spawn`
produces its outcome only from the fully folded chain, and a failing
deferred action replaces the primary outcome (success or failure) with its
own failure — the surfaced one being the failure of the last action to
execute, i.e. the first-registered failing action. -/
theorem c5_spawn_defer_order {α : Type} (events : List (SpawnEvent α))
    (acts : List (Except JSError Unit))
    (hv : spawn.valid (spawn.stepEvent spawn.initState (.forkCall 0)) events)
    (hc : (spawn.run events).live = []) :
    (spawn.deferRun acts).1 = (List.range acts.length).reverse ∧
    (∀ e, acts.find? exceptIsError = some (.error e) →
      spawn false events acts = some (.error e)) ∧
    (acts.find? exceptIsError = none →
      spawn false events acts = (spawn.run events).primary) := by
  obtain ⟨hprim, -, -, -⟩ := spawn.run_settles events hv hc
  refine ⟨spawn.deferRun_log acts, ?_, ?_⟩
  · intro e hfind
    rw [spawn, if_neg (by simp), hprim]
    rw [show (spawn.deferRun acts).2 = .error e from by
      rw [spawn.deferRun_outcome, hfind]]
  · intro hfind
    rw [spawn, if_neg (by simp), hprim]
    rw [show (spawn.deferRun acts).2 = .ok () from by
      rw [spawn.deferRun_outcome, hfind]]

/-- Witness: `c5_spawn_defer_order` with the root fulfilling 7 and deferred
actions `[fails with boomError, succeeds]` (registration order): the
execution log is `[1, 0]` and `spawn` rejects with `boomError`. -/
theorem c5_spawn_defer_order_witness :
    (spawn.valid (spawn.stepEvent (spawn.initState (α := Nat)) (.forkCall 0))
        [SpawnEvent.taskSettle 0 (Except.ok 7)] ∧
      (spawn.run [SpawnEvent.taskSettle 0 (Except.ok (7:Nat))]).live = []) ∧
    (spawn.deferRun [Except.error boomError, Except.ok ()]).1 =
      (List.range 2).reverse ∧
    spawn false [SpawnEvent.taskSettle 0 (Except.ok (7:Nat))]
        [Except.error boomError, Except.ok ()] =
      some (.error boomError) := by
  have hv : spawn.valid
      (spawn.stepEvent (spawn.initState (α := Nat)) (.forkCall 0))
      [SpawnEvent.taskSettle 0 (Except.ok 7)] := by
    simp [spawn.valid, spawn.stepEvent, spawn.initState]
  have hc : (spawn.run [SpawnEvent.taskSettle 0 (Except.ok (7:Nat))]).live
      = [] := by decide
  have h := c5_spawn_defer_order
    [SpawnEvent.taskSettle 0 (Except.ok (7:Nat))]
    [Except.error boomError, Except.ok ()] hv hc
  exact ⟨⟨hv, hc⟩, h.1, h.2.1 boomError (by decide)⟩

/-- The observable pieces of the `ForkTask` value returned by one `fork`
invocation (part_006 lines 186-232): whether `childFn` was invoked, the
immediate settlement of `join()` if predetermined, and whether `abort()`
triggers a task controller. -/
structure ForkCallView (α : Type) where
  childInvoked : Bool
  joinOutcome : Option (Except JSError α)
  abortTriggersTask : Bool
deriving DecidableEq, Repr

/-- What `fork` returns, as a function of the spawn-local state: on an
already-cancelled spawn signal it returns the pre-cancelled stub
(lines 187-195), otherwise a live task wired to a fresh controller. -/
def spawn.forkView (s : SpawnState α) : ForkCallView α :=
  if s.spawnAborted then
    { childInvoked := false, joinOutcome := some (.error AbortError),
      abortTriggersTask := false }
  else
    { childInvoked := true, joinOutcome := none, abortTriggersTask := true }

/-- C6 (confirmed): a `fork(childFn)` invoked while the spawn-local signal
is already cancelled never invokes `childFn`, returns a task whose
`abort()` is a no-op (it triggers no controller and the spawn state is
unchanged — in particular nothing is registered in the live set), and whose
`join()` rejects immediately with `AbortError`. -/
theorem c6_spawn_fork_after_cancel {α : Type} (s : SpawnState α) (id : Nat)
    (h : s.spawnAborted = true) :
    (spawn.forkView s).childInvoked = false ∧
    (spawn.forkView s).joinOutcome = some (.error (α := α) AbortError) ∧
    (spawn.forkView s).abortTriggersTask = false ∧
    spawn.stepEvent s (.forkCall id) = s := by
  refine ⟨?_, ?_, ?_, ?_⟩ <;> simp [spawn.forkView, spawn.stepEvent, h]

/-- A sample spawn-local state whose signal is already cancelled. -/
def cancelledSpawnState : SpawnState Nat :=
  { spawnAborted := true, live := [], failure := none, result := none,
    primary := some (.ok 3), outerListenerAttached := false,
    outerAddCalls := 1, outerRemoveCalls := 1, forked := [0] }

/-- Witness: `c6_spawn_fork_after_cancel` on a concrete cancelled spawn
state. -/
theorem c6_spawn_fork_after_cancel_witness :
    cancelledSpawnState.spawnAborted = true ∧
    (spawn.forkView cancelledSpawnState).childInvoked = false ∧
    (spawn.forkView cancelledSpawnState).joinOutcome =
      some (.error AbortError) ∧
    spawn.stepEvent cancelledSpawnState (.forkCall 1) = cancelledSpawnState := by
  have h := c6_spawn_fork_after_cancel cancelledSpawnState 1 rfl
  exact ⟨rfl, h.1, h.2.1, h.2.2.2⟩

/-! ## retry (src/unnamed/part_011)

Only the delay computation and the reset hook are claimed about; delays are
modelled over the rationals.  `Math.round(x)` in JS equals `⌊x + 1/2⌋`. -/

/-- JS `Math.round`. -/
def jsRound (x : ℚ) : ℤ := ⌊x + 1 / 2⌋

/-- `backoff = Math.min(maxDelayMs, Math.pow(2, attempt) * baseMs)`
(part_011 line 78) for a non-negative attempt counter. -/
def retryBackoff (baseMs maxDelayMs : ℚ) (attempt : ℕ) : ℚ :=
  min maxDelayMs (2 ^ attempt * baseMs)

/-- The delay computed after a failed attempt (part_011 lines 72-80):
`attempt` is the counter (-1 right after `reset()`), `r` the sample of
`Math.random()` in `[0, 1)`. -/
def retryDelayMs (baseMs maxDelayMs : ℚ) (attempt : ℤ) (r : ℚ) : ℤ :=
  if attempt = -1 then 0
  else jsRound (retryBackoff baseMs maxDelayMs attempt.toNat * (1 + r) / 2)

/-- `reset` from part_011 line 58: rewinds the attempt counter to -1. -/
def retryReset (_attempt : ℤ) : ℤ := -1

/-- C7 (amended): for every attempt `k ≥ 0` failing with a genuine error,
the next delay equals `round(backoff·(1+r)/2)` with
`backoff = min(maxDelayMs, 2^k·baseMs)`; whenever `backoff` is a whole
number of milliseconds this rounded delay lies within
`[backoff/2, backoff]`; and after `reset()` the next computed delay is
exactly 0.  (For fractional `backoff` the rounded value can leave the
interval by up to half a millisecond.) -/
theorem c7_retry_delay_amended (baseMs maxDelayMs : ℚ) (k : ℕ) (r : ℚ)
    (a : ℤ) (hr0 : 0 ≤ r) (hr1 : r < 1)
    (hbase : 0 < baseMs) (hmax : 0 < maxDelayMs)
    (m : ℕ) (hm : retryBackoff baseMs maxDelayMs k = (m : ℚ)) :
    retryDelayMs baseMs maxDelayMs (k : ℤ) r =
      jsRound (retryBackoff baseMs maxDelayMs k * (1 + r) / 2) ∧
    retryBackoff baseMs maxDelayMs k / 2 ≤
      (retryDelayMs baseMs maxDelayMs (k : ℤ) r : ℚ) ∧
    (retryDelayMs baseMs maxDelayMs (k : ℤ) r : ℚ) ≤
      retryBackoff baseMs maxDelayMs k ∧
    retryDelayMs baseMs maxDelayMs (retryReset a) r = 0 := by
  have hknot : (k : ℤ) ≠ -1 := by omega
  have hdef : retryDelayMs baseMs maxDelayMs (k : ℤ) r =
      jsRound (retryBackoff baseMs maxDelayMs k * (1 + r) / 2) := by
    rw [retryDelayMs, if_neg hknot, Int.toNat_natCast]
  have hb : (0:ℚ) < retryBackoff baseMs maxDelayMs k := by
    rw [retryBackoff]
    have h2 : (0:ℚ) < 2 ^ k * baseMs := by positivity
    exact lt_min hmax h2
  set b : ℚ := retryBackoff baseMs maxDelayMs k with hbdef
  set x : ℚ := b * (1 + r) / 2 with hxdef
  have hxlow : b / 2 ≤ x := by
    rw [hxdef]
    rw [div_le_div_iff₀ (by norm_num) (by norm_num)]
    nlinarith
  have hxhigh : x < b := by
    rw [hxdef]
    rw [div_lt_iff₀ (by norm_num)]
    nlinarith
  have hm1 : (1:ℚ) ≤ (m : ℚ) := by
    have : (0:ℚ) < (m : ℚ) := hm ▸ hb
    have hmnz : m ≠ 0 := by
      intro hz
      rw [hz] at this
      simp at this
    have : 1 ≤ m := Nat.one_le_iff_ne_zero.mpr hmnz
    exact_mod_cast this
  have hupper : (jsRound x : ℚ) ≤ b := by
    have hlt : ⌊x + 1 / 2⌋ < (m : ℤ) + 1 := by
      rw [Int.floor_lt]
      push_cast
      rw [hm] at hxhigh
      linarith
    have hle : ⌊x + 1 / 2⌋ ≤ (m : ℤ) := by omega
    rw [jsRound, hm]
    exact_mod_cast hle
  have hlower : b / 2 ≤ (jsRound x : ℚ) := by
    have hmono : ⌊((m : ℚ) + 1) / 2⌋ ≤ ⌊x + 1 / 2⌋ := by
      apply Int.floor_le_floor
      rw [hm] at hxlow
      linarith
    have hhalf : (m : ℚ) / 2 ≤ (⌊((m : ℚ) + 1) / 2⌋ : ℚ) := by
      rcases Nat.even_or_odd m with ⟨t, ht⟩ | ⟨t, ht⟩
      · subst ht
        have hfl : ⌊(((t + t : ℕ) : ℚ) + 1) / 2⌋ = (t : ℤ) := by
          rw [Int.floor_eq_iff]
          constructor
          · push_cast
            linarith
          · push_cast
            linarith
        rw [hfl]
        push_cast
        linarith
      · subst ht
        have hfl : ⌊(((2 * t + 1 : ℕ) : ℚ) + 1) / 2⌋ = (t : ℤ) + 1 := by
          rw [Int.floor_eq_iff]
          constructor
          · push_cast
            linarith
          · push_cast
            linarith
        rw [hfl]
        push_cast
        linarith
    rw [jsRound, hm]
    calc (m : ℚ) / 2 ≤ (⌊((m : ℚ) + 1) / 2⌋ : ℚ) := hhalf
      _ ≤ (⌊x + 1 / 2⌋ : ℚ) := by exact_mod_cast hmono
  refine ⟨hdef, ?_, ?_, rfl⟩
  · rw [hdef]
    exact hlower
  · rw [hdef]
    exact hupper

/-- Witness: `c7_retry_delay_amended` at `baseMs = 1000`,
`maxDelayMs = 30000`, attempt 0, `r = 0`: `backoff = 1000` and the computed
delay 500 lies within `[500, 1000]`; a reset attempt counter yields 0. -/
theorem c7_retry_delay_amended_witness :
    ((0:ℚ) ≤ 0 ∧ (0:ℚ) < 1 ∧ (0:ℚ) < 1000 ∧ (0:ℚ) < 30000 ∧
      retryBackoff 1000 30000 0 = ((1000 : ℕ) : ℚ)) ∧
    (retryBackoff 1000 30000 0 / 2 ≤ (retryDelayMs 1000 30000 0 0 : ℚ) ∧
      (retryDelayMs 1000 30000 0 0 : ℚ) ≤ retryBackoff 1000 30000 0 ∧
      retryDelayMs 1000 30000 (retryReset 5) 0 = 0) :=
  ⟨⟨le_refl 0, by norm_num, by norm_num, by norm_num,
      by norm_num [retryBackoff]⟩,
    (c7_retry_delay_amended 1000 30000 0 0 5 (le_refl 0) (by norm_num)
      (by norm_num) (by norm_num) 1000 (by norm_num [retryBackoff])).2⟩

/-- Counterexample to C7 as stated: with `baseMs = 3/5` ms (fractional,
but a legal `number`), attempt 0 and `r = 0`, `backoff = 3/5` and the
computed delay is `round(0.3) = 0`, which is strictly below
`backoff/2 = 0.3` — the delay does not lie within `[backoff/2, backoff]`. -/
theorem c7_retry_delay_counterexample :
    retryBackoff (3/5) 30000 0 = 3/5 ∧
    retryDelayMs (3/5) 30000 0 0 = 0 ∧
    ¬(retryBackoff (3/5) 30000 0 / 2 ≤ (retryDelayMs (3/5) 30000 0 0 : ℚ)) := by
  have hb : retryBackoff (3/5) 30000 0 = 3/5 := by
    norm_num [retryBackoff]
  have hd : retryDelayMs (3/5) 30000 0 0 = 0 := by
    rw [retryDelayMs, if_neg (by norm_num), jsRound]
    rw [show Int.toNat 0 = 0 from rfl, hb]
    rw [Int.floor_eq_iff]
    norm_num
  refine ⟨hb, hd, ?_⟩
  rw [hb, hd]
  norm_num

/-! ## Subscription accounting (outer-signal listeners) -/

/-- Subscriptions `race` adds/removes on the outer signal: the
already-aborted fast path returns before `addEventListener` (race.ts lines
36-39); otherwise one listener is added (line 49) and removed inside the
`settled` call that reaches `promises.length` (lines 60-61), which exists
exactly when there is at least one settlement event. -/
def race.listenerCounts (aborted : Bool) (events : List (SettledResult α)) :
    Nat × Nat :=
  if aborted then (0, 0)
  else (1, if events.isEmpty then 0 else 1)

/-- Subscriptions `all` adds/removes on the outer signal: the fast paths
for an aborted signal (all.ts lines 224-227) and for the empty input list
(lines 233-236) return before `addEventListener` (line 242); otherwise one
listener is added and removed when `settledCount` reaches `n` (lines
252-253). -/
def all.listenerCounts (aborted : Bool) (n : Nat)
    (events : List (Nat × SettledResult α)) : Nat × Nat :=
  if aborted then (0, 0)
  else if n = 0 then (0, 0)
  else (1, if (all.run n events).settledCount = n then 1 else 0)

/-- Subscriptions `spawn` adds/removes on the outer signal: the aborted
fast path (part_006 lines 124-126) returns before `addEventListener`
(line 141); otherwise the state machine counts the calls. -/
def spawn.listenerCounts (aborted : Bool) (events : List (SpawnEvent α)) :
    Nat × Nat :=
  if aborted then (0, 0)
  else ((spawn.run events).outerAddCalls, (spawn.run events).outerRemoveCalls)

/-- C9 (confirmed): for every settling `execute`, `race`, `all` and `spawn`
call, the number of subscriptions added to the outer signal equals the
number removed (one each off the fast paths, at settlement); the two fast
paths — the already-cancelled entry check of all four combinators and
`all`'s empty-input path, which still resolves to the empty array — create
no subscription at all.  Settling at most once is structural in the models
(each produces a single optional outcome); the guard protecting `spawn`'s
settlement is idempotent. -/
theorem c9_subscription_balance {α : Type} :
    (∀ sc : ExecuteScenario α,
      (executeModel sc).addListenerCalls =
        (executeModel sc).removeListenerCalls) ∧
    (executeModel (α := α) .alreadyAborted).addListenerCalls = 0 ∧
    (∀ events : List (SettledResult α),
      race.listenerCounts true events = (0, 0)) ∧
    (∀ events : List (SettledResult α), events ≠ [] →
      race.listenerCounts false events = (1, 1)) ∧
    (∀ (n : Nat) (events : List (Nat × SettledResult α)),
      all.listenerCounts true n events = (0, 0)) ∧
    (∀ events : List (Nat × SettledResult α),
      all.listenerCounts false 0 events = (0, 0) ∧
      all false 0 events = some (.ok [])) ∧
    (∀ (n : Nat) (events : List (Nat × SettledResult α)),
      n ≠ 0 → events.length = n →
      all.listenerCounts false n events = (1, 1)) ∧
    (∀ events : List (SpawnEvent α),
      spawn.listenerCounts true events = (0, 0)) ∧
    (∀ events : List (SpawnEvent α),
      spawn.valid (spawn.stepEvent spawn.initState (.forkCall 0)) events →
      (spawn.run events).live = [] →
      spawn.listenerCounts false events = (1, 1)) ∧
    (∀ s : SpawnState α,
      spawn.settlePrimary (spawn.settlePrimary s) = spawn.settlePrimary s) := by
  refine ⟨?_, rfl, ?_, ?_, ?_, ?_, ?_, ?_, ?_, ?_⟩
  · intro sc
    cases sc with
    | alreadyAborted => rfl
    | resolveFirst v b => cases b <;> rfl
    | rejectFirst r b => cases b <;> rfl
    | abortFirst c => rfl
  · intro events
    rfl
  · intro events h
    cases events with
    | nil => exact absurd rfl h
    | cons a t => rfl
  · intro n events
    rfl
  · intro events
    exact ⟨rfl, rfl⟩
  · intro n events hn hlen
    have hcount : (all.run n events).settledCount = n := by
      rw [all.run, all.settledCount_foldl]
      simpa using hlen
    simp [all.listenerCounts, hn, hcount]
  · intro events
    rfl
  · intro events hv hc
    obtain ⟨-, hrem, -, hadd⟩ := spawn.run_settles events hv hc
    simp [spawn.listenerCounts, hadd, hrem]
  · intro s
    by_cases h : s.primary.isSome
    · have h1 : spawn.settlePrimary s = s := by
        rw [spawn.settlePrimary, if_pos h]
      rw [h1, h1]
    · have h1 : (spawn.settlePrimary s).primary.isSome = true := by
        rw [spawn.settlePrimary, if_neg h]
        simp
      conv_lhs => rw [spawn.settlePrimary]
      rw [if_pos h1]

/-- Witness: `c9_subscription_balance` instantiated at concrete settling
calls of `race` (one input), `all` (two inputs) and `spawn` (root only). -/
theorem c9_subscription_balance_witness :
    (([SettledResult.fulfilled (1:Nat)] ≠ ([] : List (SettledResult Nat))) ∧
      ((2:Nat) ≠ 0) ∧
      ([((0:Nat), SettledResult.fulfilled (1:Nat)),
        (1, .fulfilled 2)].length = 2) ∧
      spawn.valid (spawn.stepEvent (spawn.initState (α := Nat)) (.forkCall 0))
        [SpawnEvent.taskSettle 0 (Except.ok 5)] ∧
      (spawn.run [SpawnEvent.taskSettle 0 (Except.ok (5:Nat))]).live = []) ∧
    race.listenerCounts false [SettledResult.fulfilled (1:Nat)] = (1, 1) ∧
    all.listenerCounts false 2
      [((0:Nat), SettledResult.fulfilled (1:Nat)), (1, .fulfilled 2)] = (1, 1) ∧
    spawn.listenerCounts false
      [SpawnEvent.taskSettle 0 (Except.ok (5:Nat))] = (1, 1) := by
  have h := c9_subscription_balance (α := Nat)
  have hv : spawn.valid
      (spawn.stepEvent (spawn.initState (α := Nat)) (.forkCall 0))
      [SpawnEvent.taskSettle 0 (Except.ok 5)] := by
    simp [spawn.valid, spawn.stepEvent, spawn.initState]
  refine ⟨⟨by decide, by decide, by decide, hv, by decide⟩, ?_, ?_, ?_⟩
  · exact h.2.2.2.1 _ (by decide)
  · exact h.2.2.2.2.2.2.1 2 _ (by decide) (by decide)
  · exact h.2.2.2.2.2.2.2.2.1 _ hv (by decide)
